import Mathlib

set_option linter.all false

/- Shallow embedding of the erika Obsidian plugin (src/main.ts): a label
compiler over frontmatter metadata plus the display synchronizer that writes
the compiled label into the file explorer's per-file attribute slot. -/

/-- Untyped scalar frontmatter values as delivered by the host (YAML scalars):
strings, integer numbers, booleans, and null. -/
inductive JSValue where
  | str (s : String)
  | num (n : Int)
  | bool (b : Bool)
  | null
  deriving Repr, DecidableEq

/-- JavaScript truthiness for the modelled scalar values (a string is truthy
exactly when nonempty, a number exactly when nonzero, null is falsy). -/
def JSValue.truthy : JSValue → Bool
  | .str s => decide (0 < s.length)
  | .num n => decide (n ≠ 0)
  | .bool b => b
  | .null => false

/-- The natural JavaScript string form of a value, as produced by String(v)
and by Array.prototype.join on its elements. -/
def JSValue.toJSString : JSValue → String
  | .str s => s
  | .num n => toString n
  | .bool b => if b then "true" else "false"
  | .null => "null"

/-- Reading the length property of a value: only strings have one; on numbers
and booleans the access yields undefined (none). Reading it on null would
throw; the fault-sensitive variant jsLengthE models that, this total variant
is only ever applied to non-null values. -/
def jsLength : JSValue → Option Nat
  | .str s => some s.length
  | _ => none

/-- The filter test of calcDisplayText, that is the JavaScript comparison
i.length > 0 (where undefined > 0 evaluates to false). -/
def jsKeep (v : JSValue) : Bool :=
  match jsLength v with
  | some n => decide (0 < n)
  | none => false

/-- FrontMatterCache: the mapping from field name to scalar value. -/
abbrev Frontmatter := List (String × JSValue)

/-- Runtime value of the enum member FrontmatterType.Raw. -/
def FrontmatterType.Raw : String := "raw"

/-- Runtime value of the enum member FrontmatterType.Date. -/
def FrontmatterType.Date : String := "date"

/-- FrontmatterType_TYPES: the two closed variants. -/
def FrontmatterType_TYPES : List String :=
  [FrontmatterType.Raw, FrontmatterType.Date]

/-- interface ListItem. The type field carries the enum's string value at
runtime; persisted data may hold an arbitrary string. -/
structure ListItem where
  key : String
  type : String
  format : Option String
  deriving Repr, DecidableEq

/-- interface PluginSettings. -/
structure PluginSettings where
  list : List ListItem
  separator : String
  deriving Repr, DecidableEq

/-- DEFAULT_SETTINGS: a single Raw extractor with empty key, separator "|". -/
def DEFAULT_SETTINGS : PluginSettings :=
  { list := [{ key := "", type := FrontmatterType.Raw, format := none }]
    separator := "|" }

/-- The arrow body of settings.list.map inside calcDisplayText. The parameter
M models the host's moment(value).format(format) as an arbitrary total
formatter (spec: an unparseable value degrades to the formatter's own
placeholder string, it never throws). -/
def extractOutput (M : JSValue → Option String → String) (fm : Frontmatter)
    (item : ListItem) : JSValue :=
  if item.type = FrontmatterType.Raw then
    match fm.lookup item.key with
    | some v => if v.truthy then v else .str ""
    | none => .str ""
  else if item.type = FrontmatterType.Date then
    match fm.lookup item.key with
    | some v => if v.truthy then .str (M v item.format) else .str ""
    | none => .str ""
  else .str ""

/-- How Array.prototype.join renders one element (null and undefined render
as the empty string, other values via String(v)). -/
def joinElem : JSValue → String
  | .null => ""
  | v => v.toJSString

/-- Array.prototype.join with the given separator. -/
def jsJoin (l : List JSValue) (sep : String) : String :=
  String.intercalate sep (l.map joinElem)

/-- calcDisplayText (main.ts lines 138-152): map the extractor list over the
frontmatter, filter by i.length > 0, join with the separator flanked by
single spaces; empty string when the frontmatter is absent. -/
def calcDisplayText (M : JSValue → Option String → String)
    (settings : PluginSettings) (frontmatter : Option Frontmatter) : String :=
  match frontmatter with
  | none => ""
  | some fm =>
    jsJoin ((settings.list.map (extractOutput M fm)).filter jsKeep)
      (" " ++ settings.separator ++ " ")

/-- Member access i.length with the JavaScript fault made explicit: reading a
property of null throws a TypeError. -/
def jsLengthE : JSValue → Except String (Option Nat)
  | .null => .error "TypeError: cannot read length of null"
  | .str s => .ok (some s.length)
  | .num _ => .ok none
  | .bool _ => .ok none

/-- The comparison i.length > 0 on a possibly-undefined length. -/
def jsGtZero : Option Nat → Bool
  | some n => decide (0 < n)
  | none => false

/-- The filter stage of calcDisplayText with explicit fault propagation. -/
def filterLenE : List JSValue → Except String (List JSValue)
  | [] => .ok []
  | v :: vs =>
    match jsLengthE v with
    | .error e => .error e
    | .ok lv =>
      match filterLenE vs with
      | .error e => .error e
      | .ok rest => .ok (if jsGtZero lv then v :: rest else rest)

/-- calcDisplayText with the JavaScript-faultable operations made explicit:
used to state that the compiler is total and never throws. -/
def calcDisplayTextE (M : JSValue → Option String → String)
    (settings : PluginSettings) (frontmatter : Option Frontmatter) :
    Except String String :=
  match frontmatter with
  | none => .ok ""
  | some fm =>
    match filterLenE (settings.list.map (extractOutput M fm)) with
    | .error e => .error e
    | .ok kept => .ok (jsJoin kept (" " ++ settings.separator ++ " "))

/-- TFile: the only field the plugin reads from a file object is its path. -/
structure TFile where
  path : String
  deriving Repr, DecidableEq

/-- One fileItems entry: its file (some for a TFile, none for a folder or
other abstract file) and the data-erika-value attribute slot of its selfEl. -/
structure FileItem where
  file : Option TFile
  selfAttr : Option String
  deriving Repr, DecidableEq

/-- FileExplorer view: the per-path file item index. -/
structure FileExplorer where
  fileItems : List (String × FileItem)
  deriving Repr, DecidableEq

/-- The plugin's state together with the host pieces it touches: the loaded
settings, the optional acquired file-explorer handle, the host metadata cache
(path to frontmatter, absent for files without structured metadata), and the
durable settings store written by saveData. -/
structure PluginState where
  settings : PluginSettings
  fileExplorer : Option FileExplorer
  metadataCache : List (String × Frontmatter)
  savedData : Option PluginSettings
  deriving Repr, DecidableEq

/-- Observable host effects of the plugin, in program order: attribute writes
into a file node's display slot, and persistence writes of the settings. -/
inductive Eff where
  | setAttrE (path : String) (value : String)
  | persistE (s : PluginSettings)
  deriving Repr, DecidableEq

/-- Whether an effect is a label write into a file node. -/
def Eff.isWrite : Eff → Bool
  | .setAttrE _ _ => true
  | .persistE _ => false

/-- Whether an effect is a persistence write of the settings. -/
def Eff.isPersist : Eff → Bool
  | .setAttrE _ _ => false
  | .persistE _ => true

/-- Helper: the state with the file-explorer handle holding the given item
index and everything else unchanged. -/
def withItems (st : PluginState) (items : List (String × FileItem)) : PluginState :=
  { st with fileExplorer := some (FileExplorer.mk items) }

/-- selfEl.setAttribute on the fileItems entry stored under path p (keys of a
JavaScript object are unique, so at most one entry is affected). -/
def setAttrAll (items : List (String × FileItem)) (p : String) (v : String) :
    List (String × FileItem) :=
  items.map fun it =>
    if it.1 = p then (it.1, { it.2 with selfAttr := some v }) else it

/-- The label the plugin computes for path p: calcDisplayText of the current
settings on getFileCache(file)?.frontmatter. -/
def labelOf (M : JSValue → Option String → String) (st : PluginState)
    (p : String) : String :=
  calcDisplayText M st.settings (st.metadataCache.lookup p)

/-- updateFileDisplay (main.ts lines 127-136). Returns none to model the
TypeError thrown when destructuring fileItems[file.path] for an untracked
path; otherwise returns the new state and the emitted host effects. -/
def updateFileDisplay (M : JSValue → Option String → String)
    (st : PluginState) (file : TFile) : Option (PluginState × List Eff) :=
  match st.fileExplorer with
  | none => some (st, [])
  | some fe =>
    match fe.fileItems.lookup file.path with
    | none => none
    | some _ =>
      some
        (withItems st (setAttrAll fe.fileItems file.path (labelOf M st file.path)),
         [Eff.setAttrE file.path (labelOf M st file.path)])

/-- The fileItems of the currently held file explorer (empty when absent). -/
def itemsOf (st : PluginState) : List (String × FileItem) :=
  match st.fileExplorer with
  | none => []
  | some fe => fe.fileItems

/-- The for-in loop of updateFileExplorer over the listed path keys, threading
the mutated state; the Bool records whether an exception escaped (aborting the
loop, with the writes already performed kept). -/
def updateFEAux (M : JSValue → Option String → String) (st : PluginState) :
    List String → PluginState × List Eff × Bool
  | [] => (st, [], false)
  | p :: ps =>
    match (itemsOf st).lookup p with
    | none => (st, [], true)
    | some item =>
      match item.file with
      | none => updateFEAux M st ps
      | some f =>
        match updateFileDisplay M st f with
        | none => (st, [], true)
        | some (st1, es) =>
          match updateFEAux M st1 ps with
          | (st2, es2, t) => (st2, es ++ es2, t)

/-- updateFileExplorer (main.ts lines 112-125): a no-op when the handle has
not been acquired, otherwise iterate every key of fileItems and refresh each
entry whose file is a TFile. -/
def updateFileExplorer (M : JSValue → Option String → String)
    (st : PluginState) : PluginState × List Eff × Bool :=
  match st.fileExplorer with
  | none => (st, [], false)
  | some fe => updateFEAux M st (fe.fileItems.map Prod.fst)

/-- saveAndUpdateDisplay (main.ts lines 69-72): refresh the display first,
then persist the settings; an exception escaping the refresh prevents the
save. -/
def saveAndUpdateDisplay (M : JSValue → Option String → String)
    (st : PluginState) : PluginState × List Eff × Bool :=
  match updateFileExplorer M st with
  | (st1, es, true) => (st1, es, true)
  | (st1, es, false) =>
    ({ st1 with savedData := some st1.settings },
     es ++ [Eff.persistE st1.settings], false)

/-- A workspace leaf: view is some fe exactly when the leaf's view exposes a
fileItems index (the check !view || !view.fileItems in the source). -/
structure Leaf where
  view : Option FileExplorer
  deriving Repr, DecidableEq

/-- getFileExplorerLeaf (main.ts lines 89-110): resolve with the first leaf
whose view has fileItems, otherwise reject. -/
def getFileExplorerLeaf (leaves : List Leaf) : Except String FileExplorer :=
  match leaves.findSome? (fun l => l.view) with
  | some fe => .ok fe
  | none => .error "Could not find file explorer leaf"

/-- Scheduler-level events emitted by init. -/
inductive InitEv where
  | retryScheduled (ms : Nat)
  | refreshAllCalled
  deriving Repr, DecidableEq

/-- The assignment this.fileExplorer = leaf.view performed on a successful
acquisition. -/
def setFileExplorer (st : PluginState) (fe : FileExplorer) : PluginState :=
  { st with fileExplorer := some fe }

/-- init (main.ts lines 74-87), run against the sequence of workspace
contents seen by successive acquisition attempts. A failed acquisition logs
the error and schedules a retry in 1000 ms. A successful one stores the
handle and runs the full refresh inside the same try block: when the refresh
throws, the catch fires too, a retry is scheduled, and init runs again from
the partially refreshed state; when it completes, init stops. -/
def init (M : JSValue → Option String → String) (st : PluginState) :
    List (List Leaf) → PluginState × List InitEv
  | [] => (st, [])
  | leaves :: rest =>
    match getFileExplorerLeaf leaves with
    | .error _ =>
      match init M st rest with
      | (st1, evs) => (st1, InitEv.retryScheduled 1000 :: evs)
    | .ok fe =>
      match updateFileExplorer M (setFileExplorer st fe) with
      | (st1, _, true) =>
        match init M st1 rest with
        | (st2, evs) =>
          (st2, InitEv.refreshAllCalled :: InitEv.retryScheduled 1000 :: evs)
      | (st1, _, false) => (st1, [InitEv.refreshAllCalled])

/-- Modelled from the spec's words in section 4.1 (the per-extractor output
as the spec states it): the Raw output is the snapshot value coerced to its
natural string form when truthy, the empty string when the key is absent or
the value falsy; Date and unknown kinds as in the source. Reference point for
the compile refinement claims. -/
def specExtractLiteral (M : JSValue → Option String → String)
    (fm : Frontmatter) (item : ListItem) : String :=
  if item.type = FrontmatterType.Raw then
    match fm.lookup item.key with
    | some v => if v.truthy then v.toJSString else ""
    | none => ""
  else if item.type = FrontmatterType.Date then
    match fm.lookup item.key with
    | some v => if v.truthy then M v item.format else ""
    | none => ""
  else ""

/-- Modelled from the spec's words: discard the empty per-extractor outputs
and join the remaining outputs, in order, with the separator flanked by
single spaces. -/
def compileSpecRef (M : JSValue → Option String → String)
    (cfg : PluginSettings) (frontmatter : Option Frontmatter) : String :=
  match frontmatter with
  | none => ""
  | some fm =>
    String.intercalate (" " ++ cfg.separator ++ " ")
      ((cfg.list.map (specExtractLiteral M fm)).filter (fun s => !s.isEmpty))

/-- The amended per-extractor output: a Raw value contributes its string form
only when it is truthy and carries a positive length property (a nonempty
string); truthy numbers and booleans contribute nothing. -/
def specExtractAmended (M : JSValue → Option String → String)
    (fm : Frontmatter) (item : ListItem) : String :=
  if item.type = FrontmatterType.Raw then
    match fm.lookup item.key with
    | some v => if v.truthy && jsKeep v then v.toJSString else ""
    | none => ""
  else if item.type = FrontmatterType.Date then
    match fm.lookup item.key with
    | some v => if v.truthy then M v item.format else ""
    | none => ""
  else ""

/-- The amended compile pipeline: per-extractor strings as in
specExtractAmended, discard the empty ones, join with the flanked
separator. -/
def compileAmended (M : JSValue → Option String → String)
    (cfg : PluginSettings) (frontmatter : Option Frontmatter) : String :=
  match frontmatter with
  | none => ""
  | some fm =>
    String.intercalate (" " ++ cfg.separator ++ " ")
      ((cfg.list.map (specExtractAmended M fm)).filter (fun s => !s.isEmpty))

/-- A fixed concrete formatter, used for concrete instances. -/
def fmtZ : JSValue → Option String → String := fun _ _ => ""

/-- Proof-layer helper: write the label of path p into the tracked set (the
net state effect of one successful updateFileDisplay). -/
def writeLabel (M : JSValue → Option String → String) (st : PluginState)
    (p : String) : PluginState :=
  match st.fileExplorer with
  | none => st
  | some fe => withItems st (setAttrAll fe.fileItems p (labelOf M st p))

/-- Proof-layer helper: the sequence of write targets the refresh loop
performs when iterating the given keys over the given item index (truncated
where the loop would throw). -/
def refreshTargets (items : List (String × FileItem)) :
    List String → List String
  | [] => []
  | p :: ps =>
    match items.lookup p with
    | none => []
    | some item =>
      match item.file with
      | none => refreshTargets items ps
      | some f =>
        match items.lookup f.path with
        | none => []
        | some _ => f.path :: refreshTargets items ps

/-- Proof-layer helper: perform the writes of a target list in order. -/
def applyTargets (M : JSValue → Option String → String) (st : PluginState) :
    List String → PluginState
  | [] => st
  | p :: ps => applyTargets M (writeLabel M st p) ps

/-- Proof-layer helper: the effect of a write sequence on one item entry. -/
def itemApply (L : String → String) (ws : List String)
    (it : String × FileItem) : String × FileItem :=
  ws.foldl
    (fun it p =>
      if it.1 = p then (it.1, { it.2 with selfAttr := some (L p) }) else it)
    it

/-- Concrete extractor configuration with two Raw extractors over keys a and
b, separator "|". -/
def cfgAB : PluginSettings :=
  { list := [⟨"a", FrontmatterType.Raw, none⟩, ⟨"b", FrontmatterType.Raw, none⟩]
    separator := "|" }

/-- Concrete file used by concrete instances. -/
def fA : TFile := ⟨"a.md"⟩

/-- Concrete state with no acquired handle. -/
def stN : PluginState :=
  { settings := DEFAULT_SETTINGS, fileExplorer := none, metadataCache := []
    savedData := none }

/-- Concrete state with an acquired handle whose tracked set is empty. -/
def stU : PluginState :=
  { settings := DEFAULT_SETTINGS, fileExplorer := some ⟨[]⟩, metadataCache := []
    savedData := none }

/-- Concrete tracked-set entries holding the single file a.md. -/
def itemsT : List (String × FileItem) :=
  [("a.md", { file := some fA, selfAttr := none })]

/-- Concrete settings with one Raw extractor over key k. -/
def cfgW : PluginSettings :=
  { list := [⟨"k", FrontmatterType.Raw, none⟩], separator := "|" }

/-- Concrete state tracking a.md whose frontmatter holds k: v. -/
def stT : PluginState :=
  { settings := cfgW, fileExplorer := some ⟨itemsT⟩
    metadataCache := [("a.md", [("k", JSValue.str "v")])], savedData := none }

/-- Concrete state whose tracked set has an entry registered under key x for
a file whose own path y is not tracked, so the refresh loop throws when it
reaches that entry. -/
def stX : PluginState :=
  { settings := cfgW
    fileExplorer := some ⟨[("x", { file := some ⟨"y"⟩, selfAttr := none })]⟩
    metadataCache := [], savedData := none }

/- Helper lemmas: string emptiness and length. -/

theorem empty_isEmpty : "".isEmpty = true := rfl

theorem str_isEmpty_length (s : String) : s.isEmpty = decide (s.length = 0) := by
  by_cases h : s.length = 0
  · have : s = "" := by
      cases s with
      | mk data =>
        cases data with
        | nil => rfl
        | cons c cs => simp [String.length] at h
    subst this
    simp [empty_isEmpty]
  · simp [h]
    rw [Bool.eq_false_iff]
    intro he
    rw [String.isEmpty_iff] at he
    subst he
    simp [String.length] at h

theorem intercalate_nil (s : String) : String.intercalate s [] = "" := rfl

theorem intercalate_single (s a : String) : String.intercalate s [a] = a := rfl

/- Helper lemmas: the filter-join pipeline of the label compiler agrees with
the string-level amended pipeline. -/

theorem keepMap_item (M : JSValue → Option String → String) (fm : Frontmatter)
    (item : ListItem) :
    (if jsKeep (extractOutput M fm item) then [joinElem (extractOutput M fm item)] else []) =
      (if !(specExtractAmended M fm item).isEmpty then [specExtractAmended M fm item] else []) := by
  by_cases h1 : item.type = FrontmatterType.Raw
  · simp only [extractOutput, specExtractAmended, if_pos h1]
    cases hl : fm.lookup item.key with
    | none => simp [jsKeep, jsLength, joinElem, empty_isEmpty]
    | some v =>
      cases hv : v.truthy with
      | false => simp [hv, jsKeep, jsLength, empty_isEmpty]
      | true =>
        cases v with
        | str s =>
          have hp : 0 < s.length := by simpa [JSValue.truthy] using hv
          have hs : s.length ≠ 0 := by omega
          simp [hv, jsKeep, jsLength, joinElem, JSValue.toJSString,
            str_isEmpty_length, hs, hp]
        | num n => simp [hv, jsKeep, jsLength, empty_isEmpty]
        | bool b => simp [hv, jsKeep, jsLength, empty_isEmpty]
        | null => simp [JSValue.truthy] at hv
  · by_cases h2 : item.type = FrontmatterType.Date
    · simp only [extractOutput, specExtractAmended, if_neg h1, if_pos h2]
      cases hl : fm.lookup item.key with
      | none => simp [jsKeep, jsLength, joinElem, empty_isEmpty]
      | some v =>
        cases hv : v.truthy with
        | false => simp [hv, jsKeep, jsLength, empty_isEmpty]
        | true =>
          simp only [hv, if_true, jsKeep, jsLength, joinElem, str_isEmpty_length]
          by_cases hm : (M v item.format).length = 0
          · simp [hm]
          · simp [hm, joinElem, JSValue.toJSString,
              show 0 < (M v item.format).length by omega]
    · simp [extractOutput, specExtractAmended, if_neg h1, if_neg h2, jsKeep,
        jsLength, empty_isEmpty]

theorem filter_cons_split {α : Type} (p : α → Bool) (a : α) (l : List α) :
    List.filter p (a :: l) = (if p a then [a] else []) ++ List.filter p l := by
  by_cases h : p a <;> simp [List.filter_cons, h]

theorem keepMap_list (M : JSValue → Option String → String) (fm : Frontmatter) :
    ∀ l : List ListItem,
      ((l.map (extractOutput M fm)).filter jsKeep).map joinElem =
        (l.map (specExtractAmended M fm)).filter (fun s => !s.isEmpty) := by
  intro l
  induction l with
  | nil => rfl
  | cons i l ih =>
    simp only [List.map_cons]
    rw [filter_cons_split, filter_cons_split, List.map_append, ih]
    congr 1
    have h := keepMap_item M fm i
    by_cases hk : jsKeep (extractOutput M fm i)
    · simp only [if_pos hk, List.map_cons, List.map_nil] at *
      exact h
    · simp only [if_neg hk, List.map_nil] at *
      exact h

theorem calc_eq_compileAmended (M : JSValue → Option String → String)
    (cfg : PluginSettings) (fm : Option Frontmatter) :
    calcDisplayText M cfg fm = compileAmended M cfg fm := by
  cases fm with
  | none => rfl
  | some f =>
    simp only [calcDisplayText, compileAmended, jsJoin]
    rw [keepMap_list]

/- Helper lemmas: totality of the compiler under explicit fault modelling. -/

theorem jsLengthE_ok (v : JSValue) (h : v ≠ JSValue.null) :
    jsLengthE v = Except.ok (jsLength v) := by
  cases v <;> simp_all [jsLengthE, jsLength]

theorem extractOutput_ne_null (M : JSValue → Option String → String)
    (fm : Frontmatter) (item : ListItem) :
    extractOutput M fm item ≠ JSValue.null := by
  by_cases h1 : item.type = FrontmatterType.Raw
  · simp only [extractOutput, if_pos h1]
    cases hl : fm.lookup item.key with
    | none => simp
    | some v =>
      cases hv : v.truthy with
      | false => simp [hv]
      | true => cases v <;> simp_all [JSValue.truthy]
  · by_cases h2 : item.type = FrontmatterType.Date
    · simp only [extractOutput, if_neg h1, if_pos h2]
      cases hl : fm.lookup item.key with
      | none => simp
      | some v => cases hv : v.truthy <;> simp [hv]
    · simp [extractOutput, if_neg h1, if_neg h2]

theorem filterLenE_ok (l : List JSValue) (h : ∀ v ∈ l, v ≠ JSValue.null) :
    filterLenE l = Except.ok (l.filter jsKeep) := by
  induction l with
  | nil => rfl
  | cons v vs ih =>
    have hv := h v (List.mem_cons_self v vs)
    have ihh := ih (fun w hw => h w (List.mem_cons_of_mem v hw))
    simp only [filterLenE, jsLengthE_ok v hv, ihh]
    by_cases hk : jsKeep v
    · have : jsGtZero (jsLength v) = true := by
        simpa [jsKeep, jsGtZero] using hk
      simp [List.filter_cons, hk, this]
    · have : jsGtZero (jsLength v) = false := by
        cases hg : jsGtZero (jsLength v)
        · rfl
        · exact absurd (by simpa [jsKeep, jsGtZero] using hg) hk
      simp [List.filter_cons, this, Bool.eq_false_iff.mpr hk]

/- Helper lemmas: association-list lookups under key-preserving maps. -/

theorem lookup_cons_pair (p : String) (y : String × FileItem)
    (l : List (String × FileItem)) :
    List.lookup p (y :: l) = if p == y.1 then some y.2 else List.lookup p l := by
  rcases y with ⟨k, x⟩
  rw [List.lookup_cons]
  cases h : p == k <;> simp [h]

theorem lookup_map (g : String × FileItem → String × FileItem)
    (hg : ∀ kx, (g kx).1 = kx.1) (l : List (String × FileItem)) (p : String) :
    List.lookup p (l.map g) = (List.lookup p l).map (fun x => (g (p, x)).2) := by
  induction l with
  | nil => rfl
  | cons a l ih =>
    rw [List.map_cons, lookup_cons_pair, lookup_cons_pair, hg a]
    cases h : p == a.1 with
    | false => simpa [h] using ih
    | true =>
      have hpa : p = a.1 := by simpa using h
      subst hpa
      simp [Prod.mk.eta]

theorem lookup_setAttrAll_ne (l : List (String × FileItem)) (p : String)
    (v : String) (q : String) (h : q ≠ p) :
    (setAttrAll l p v).lookup q = l.lookup q := by
  unfold setAttrAll
  rw [lookup_map _ (fun kx => by by_cases hk : kx.1 = p <;> simp [hk])]
  cases l.lookup q <;> simp [h]

/- Helper lemmas: the per-item view of a write sequence. -/

theorem itemApply_char (L : String → String) :
    ∀ (ws : List String) (it : String × FileItem),
      itemApply L ws it =
        if it.1 ∈ ws then (it.1, { it.2 with selfAttr := some (L it.1) }) else it := by
  intro ws
  induction ws with
  | nil => intro it; simp [itemApply]
  | cons p ps ih =>
    intro it
    simp only [itemApply, List.foldl_cons]
    by_cases h : it.1 = p
    · subst h
      rw [if_pos rfl]
      have h2 := ih (it.1, { it.2 with selfAttr := some (L it.1) })
      simp only [itemApply] at h2
      rw [h2]
      by_cases hc : it.1 ∈ ps <;> simp [hc, List.mem_cons]
    · rw [if_neg h]
      have h2 := ih it
      simp only [itemApply] at h2
      rw [h2]
      simp [List.mem_cons, h]

theorem itemApply_idem (L : String → String) (ws : List String)
    (it : String × FileItem) :
    itemApply L ws (itemApply L ws it) = itemApply L ws it := by
  simp only [itemApply_char]
  by_cases h : it.1 ∈ ws <;> simp [h]

theorem itemApply_fst (L : String → String) (ws : List String)
    (it : String × FileItem) : (itemApply L ws it).1 = it.1 := by
  rw [itemApply_char]
  by_cases h : it.1 ∈ ws <;> simp [h]

theorem itemApply_file (L : String → String) (ws : List String)
    (it : String × FileItem) : (itemApply L ws it).2.file = it.2.file := by
  rw [itemApply_char]
  by_cases h : it.1 ∈ ws <;> simp [h]

/- Helper lemmas: read-only components are preserved by writes. -/

theorem writeLabel_settings (M : JSValue → Option String → String)
    (st : PluginState) (p : String) :
    (writeLabel M st p).settings = st.settings := by
  unfold writeLabel
  split <;> rfl

theorem writeLabel_metadataCache (M : JSValue → Option String → String)
    (st : PluginState) (p : String) :
    (writeLabel M st p).metadataCache = st.metadataCache := by
  unfold writeLabel
  split <;> rfl

theorem writeLabel_savedData (M : JSValue → Option String → String)
    (st : PluginState) (p : String) :
    (writeLabel M st p).savedData = st.savedData := by
  unfold writeLabel
  split <;> rfl

theorem labelOf_writeLabel (M : JSValue → Option String → String)
    (st : PluginState) (p : String) :
    labelOf M (writeLabel M st p) = labelOf M st := by
  funext q
  unfold labelOf
  rw [writeLabel_settings, writeLabel_metadataCache]

theorem writeLabel_withItems (M : JSValue → Option String → String)
    (st : PluginState) (p : String) (items : List (String × FileItem)) :
    withItems (writeLabel M st p) items = withItems st items := by
  unfold writeLabel withItems
  split <;> rfl

/- Helper lemmas: the write sequence of a refresh, characterised as a map
over the item index. -/

theorem applyTargets_eq_map (M : JSValue → Option String → String) :
    ∀ (ws : List String) (st : PluginState) (fe : FileExplorer),
      st.fileExplorer = some fe →
      applyTargets M st ws =
        withItems st (fe.fileItems.map (itemApply (labelOf M st) ws)) := by
  intro ws
  induction ws with
  | nil =>
    intro st fe h
    have h1 : fe.fileItems.map (itemApply (labelOf M st) []) = fe.fileItems := by
      have h2 : itemApply (labelOf M st) [] = fun it => it := by
        funext it
        rfl
      rw [h2, List.map_id']
    rw [h1]
    show st = withItems st fe.fileItems
    unfold withItems
    cases st with
    | mk s f m sd =>
      simp only at h
      rw [h]
  | cons p ps ih =>
    intro st fe h
    show applyTargets M (writeLabel M st p) ps = _
    have hw : (writeLabel M st p).fileExplorer =
        some (FileExplorer.mk (setAttrAll fe.fileItems p (labelOf M st p))) := by
      simp [writeLabel, withItems, h]
    rw [ih (writeLabel M st p) _ hw, labelOf_writeLabel, writeLabel_withItems]
    have hitems : (setAttrAll fe.fileItems p (labelOf M st p)).map
        (itemApply (labelOf M st) ps) =
        fe.fileItems.map (itemApply (labelOf M st) (p :: ps)) := by
      unfold setAttrAll
      rw [List.map_map]
      rfl
    rw [hitems]

theorem applyTargets_noFE (M : JSValue → Option String → String) :
    ∀ (ws : List String) (st : PluginState), st.fileExplorer = none →
      applyTargets M st ws = st := by
  intro ws
  induction ws with
  | nil => intro st h; rfl
  | cons p ps ih =>
    intro st h
    show applyTargets M (writeLabel M st p) ps = st
    have hw : writeLabel M st p = st := by
      unfold writeLabel
      rw [h]
    rw [hw]
    exact ih st h

theorem applyTargets_settings (M : JSValue → Option String → String) :
    ∀ (ws : List String) (st : PluginState),
      (applyTargets M st ws).settings = st.settings := by
  intro ws
  induction ws with
  | nil => intro st; rfl
  | cons p ps ih =>
    intro st
    show (applyTargets M (writeLabel M st p) ps).settings = st.settings
    rw [ih, writeLabel_settings]

theorem applyTargets_metadataCache (M : JSValue → Option String → String) :
    ∀ (ws : List String) (st : PluginState),
      (applyTargets M st ws).metadataCache = st.metadataCache := by
  intro ws
  induction ws with
  | nil => intro st; rfl
  | cons p ps ih =>
    intro st
    show (applyTargets M (writeLabel M st p) ps).metadataCache = st.metadataCache
    rw [ih, writeLabel_metadataCache]

theorem applyTargets_savedData (M : JSValue → Option String → String) :
    ∀ (ws : List String) (st : PluginState),
      (applyTargets M st ws).savedData = st.savedData := by
  intro ws
  induction ws with
  | nil => intro st; rfl
  | cons p ps ih =>
    intro st
    show (applyTargets M (writeLabel M st p) ps).savedData = st.savedData
    rw [ih, writeLabel_savedData]

theorem labelOf_applyTargets (M : JSValue → Option String → String)
    (ws : List String) (st : PluginState) :
    labelOf M (applyTargets M st ws) = labelOf M st := by
  funext q
  unfold labelOf
  rw [applyTargets_settings, applyTargets_metadataCache]

theorem withItems_fe (st : PluginState) (items : List (String × FileItem)) :
    (withItems st items).fileExplorer = some (FileExplorer.mk items) := rfl

theorem withItems_withItems (st : PluginState) (a b : List (String × FileItem)) :
    withItems (withItems st a) b = withItems st b := rfl

theorem applyTargets_idem (M : JSValue → Option String → String)
    (ws : List String) (st : PluginState) :
    applyTargets M (applyTargets M st ws) ws = applyTargets M st ws := by
  cases h : st.fileExplorer with
  | none =>
    rw [applyTargets_noFE M ws st h, applyTargets_noFE M ws st h]
  | some fe =>
    have h1 := applyTargets_eq_map M ws st fe h
    have hfe2 : (applyTargets M st ws).fileExplorer =
        some (FileExplorer.mk (fe.fileItems.map (itemApply (labelOf M st) ws))) := by
      rw [h1, withItems_fe]
    have h2 := applyTargets_eq_map M ws (applyTargets M st ws) _ hfe2
    rw [h2, labelOf_applyTargets, h1, withItems_withItems]
    have h3 : (fe.fileItems.map (itemApply (labelOf M st) ws)).map
        (itemApply (labelOf M st) ws) = fe.fileItems.map (itemApply (labelOf M st) ws) := by
      rw [List.map_map]
      have h4 : itemApply (labelOf M st) ws ∘ itemApply (labelOf M st) ws =
          itemApply (labelOf M st) ws := by
        funext it
        exact itemApply_idem _ ws it
      rw [h4]
    rw [h3]

/- Helper lemmas: the loop's control decisions only read keys and file
fields, which writes never change. -/

theorem refreshTargets_map (g : String × FileItem → String × FileItem)
    (hg1 : ∀ kx, (g kx).1 = kx.1) (hg2 : ∀ kx, ((g kx).2).file = kx.2.file)
    (l : List (String × FileItem)) :
    ∀ keys, refreshTargets (l.map g) keys = refreshTargets l keys := by
  intro keys
  induction keys with
  | nil => rfl
  | cons p ps ih =>
    simp only [refreshTargets, lookup_map g hg1]
    cases hl : List.lookup p l with
    | none => rfl
    | some item =>
      simp only [Option.map_some']
      rw [hg2 (p, item)]
      cases hf : item.file with
      | none => exact ih
      | some f =>
        cases hlf : List.lookup f.path l with
        | none => simp [hlf]
        | some x => simp [hlf, ih]

theorem updateFileDisplay_noFE (M : JSValue → Option String → String)
    (st : PluginState) (f : TFile) (h : st.fileExplorer = none) :
    updateFileDisplay M st f = some (st, []) := by
  rcases st with ⟨s, feo, m, sd⟩
  simp only at h
  subst h
  simp [updateFileDisplay]

theorem updateFileDisplay_none (M : JSValue → Option String → String)
    (st : PluginState) (fe : FileExplorer) (f : TFile)
    (h : st.fileExplorer = some fe)
    (hl : fe.fileItems.lookup f.path = none) :
    updateFileDisplay M st f = none := by
  rcases st with ⟨s, feo, m, sd⟩
  simp only at h
  subst h
  simp [updateFileDisplay, hl]

theorem updateFileDisplay_eq_writeLabel (M : JSValue → Option String → String)
    (st : PluginState) (fe : FileExplorer) (f : TFile)
    (h : st.fileExplorer = some fe) (hl : (fe.fileItems.lookup f.path).isSome) :
    updateFileDisplay M st f =
      some (writeLabel M st f.path, [Eff.setAttrE f.path (labelOf M st f.path)]) := by
  rcases st with ⟨s, feo, m, sd⟩
  simp only at h
  subst h
  cases hlk : fe.fileItems.lookup f.path with
  | none => rw [hlk] at hl; simp at hl
  | some it => simp [updateFileDisplay, writeLabel, labelOf, hlk]

theorem applyTargets_cons (M : JSValue → Option String → String)
    (st : PluginState) (p : String) (ps : List String) :
    applyTargets M st (p :: ps) = applyTargets M (writeLabel M st p) ps := rfl

/- Helper lemmas: the refresh loop equals its write script, in state and in
emitted effects. -/

theorem updateFEAux_char (M : JSValue → Option String → String) :
    ∀ (keys : List String) (st : PluginState) (fe : FileExplorer),
      st.fileExplorer = some fe →
      (updateFEAux M st keys).1 =
        applyTargets M st (refreshTargets fe.fileItems keys) := by
  intro keys
  induction keys with
  | nil => intro st fe h; rfl
  | cons p ps ih =>
    intro st fe h
    have hio : itemsOf st = fe.fileItems := by simp [itemsOf, h]
    simp only [updateFEAux, refreshTargets, hio]
    cases hl : List.lookup p fe.fileItems with
    | none => rfl
    | some item =>
      show (match item.file with
        | none => updateFEAux M st ps
        | some f =>
          match updateFileDisplay M st f with
          | none => (st, [], true)
          | some (st1, es) =>
            match updateFEAux M st1 ps with
            | (st2, es2, t) => (st2, es ++ es2, t)).1 =
        applyTargets M st
          (match item.file with
           | none => refreshTargets fe.fileItems ps
           | some f =>
             match List.lookup f.path fe.fileItems with
             | none => []
             | some _ => f.path :: refreshTargets fe.fileItems ps)
      cases hf : item.file with
      | none => exact ih st fe h
      | some f =>
        show (match updateFileDisplay M st f with
          | none => (st, [], true)
          | some (st1, es) =>
            match updateFEAux M st1 ps with
            | (st2, es2, t) => (st2, es ++ es2, t)).1 =
          applyTargets M st
            (match List.lookup f.path fe.fileItems with
             | none => []
             | some _ => f.path :: refreshTargets fe.fileItems ps)
        cases hfp : List.lookup f.path fe.fileItems with
        | none =>
          rw [updateFileDisplay_none M st fe f h hfp]
          rfl
        | some it2 =>
          rw [updateFileDisplay_eq_writeLabel M st fe f h (by rw [hfp]; rfl)]
          rw [applyTargets_cons]
          have hfe1 : (writeLabel M st f.path).fileExplorer =
              some (FileExplorer.mk (setAttrAll fe.fileItems f.path (labelOf M st f.path))) := by
            unfold writeLabel
            rw [h]
            rfl
          have hstable : refreshTargets (setAttrAll fe.fileItems f.path (labelOf M st f.path)) ps =
              refreshTargets fe.fileItems ps := by
            unfold setAttrAll
            apply refreshTargets_map
            · intro kx
              by_cases hk : kx.1 = f.path <;> simp [hk]
            · intro kx
              by_cases hk : kx.1 = f.path <;> simp [hk]
          have hih := ih (writeLabel M st f.path)
            (FileExplorer.mk (setAttrAll fe.fileItems f.path (labelOf M st f.path))) hfe1
          rw [hstable] at hih
          exact hih

theorem updateFEAux_effs_char (M : JSValue → Option String → String) :
    ∀ (keys : List String) (st : PluginState) (fe : FileExplorer),
      st.fileExplorer = some fe →
      (updateFEAux M st keys).2.1 =
        (refreshTargets fe.fileItems keys).map
          (fun q => Eff.setAttrE q (labelOf M st q)) := by
  intro keys
  induction keys with
  | nil => intro st fe h; rfl
  | cons p ps ih =>
    intro st fe h
    have hio : itemsOf st = fe.fileItems := by simp [itemsOf, h]
    simp only [updateFEAux, refreshTargets, hio]
    cases hl : List.lookup p fe.fileItems with
    | none => rfl
    | some item =>
      show (match item.file with
        | none => updateFEAux M st ps
        | some f =>
          match updateFileDisplay M st f with
          | none => (st, [], true)
          | some (st1, es) =>
            match updateFEAux M st1 ps with
            | (st2, es2, t) => (st2, es ++ es2, t)).2.1 =
        (match item.file with
         | none => refreshTargets fe.fileItems ps
         | some f =>
           match List.lookup f.path fe.fileItems with
           | none => []
           | some _ => f.path :: refreshTargets fe.fileItems ps).map
          (fun q => Eff.setAttrE q (labelOf M st q))
      cases hf : item.file with
      | none => exact ih st fe h
      | some f =>
        show (match updateFileDisplay M st f with
          | none => (st, [], true)
          | some (st1, es) =>
            match updateFEAux M st1 ps with
            | (st2, es2, t) => (st2, es ++ es2, t)).2.1 =
          (match List.lookup f.path fe.fileItems with
           | none => []
           | some _ => f.path :: refreshTargets fe.fileItems ps).map
            (fun q => Eff.setAttrE q (labelOf M st q))
        cases hfp : List.lookup f.path fe.fileItems with
        | none =>
          rw [updateFileDisplay_none M st fe f h hfp]
          rfl
        | some it2 =>
          rw [updateFileDisplay_eq_writeLabel M st fe f h (by rw [hfp]; rfl)]
          have hfe1 : (writeLabel M st f.path).fileExplorer =
              some (FileExplorer.mk (setAttrAll fe.fileItems f.path (labelOf M st f.path))) := by
            unfold writeLabel
            rw [h]
            rfl
          have hstable : refreshTargets (setAttrAll fe.fileItems f.path (labelOf M st f.path)) ps =
              refreshTargets fe.fileItems ps := by
            unfold setAttrAll
            apply refreshTargets_map
            · intro kx
              by_cases hk : kx.1 = f.path <;> simp [hk]
            · intro kx
              by_cases hk : kx.1 = f.path <;> simp [hk]
          have hih := ih (writeLabel M st f.path)
            (FileExplorer.mk (setAttrAll fe.fileItems f.path (labelOf M st f.path))) hfe1
          rw [hstable, labelOf_writeLabel] at hih
          show Eff.setAttrE f.path (labelOf M st f.path) ::
              (updateFEAux M (writeLabel M st f.path) ps).2.1 =
            Eff.setAttrE f.path (labelOf M st f.path) ::
              (refreshTargets fe.fileItems ps).map (fun q => Eff.setAttrE q (labelOf M st q))
          rw [hih]

theorem updateFileExplorer_noFE (M : JSValue → Option String → String)
    (st : PluginState) (h : st.fileExplorer = none) :
    updateFileExplorer M st = (st, [], false) := by
  rcases st with ⟨s, feo, m, sd⟩
  simp only at h
  subst h
  rfl

theorem updateFileExplorer_char (M : JSValue → Option String → String)
    (st : PluginState) (fe : FileExplorer) (h : st.fileExplorer = some fe) :
    (updateFileExplorer M st).1 =
      applyTargets M st (refreshTargets fe.fileItems (fe.fileItems.map Prod.fst)) := by
  rcases st with ⟨s, feo, m, sd⟩
  simp only at h
  subst h
  show (updateFEAux M ⟨s, some fe, m, sd⟩ (fe.fileItems.map Prod.fst)).1 = _
  exact updateFEAux_char M (fe.fileItems.map Prod.fst) ⟨s, some fe, m, sd⟩ fe rfl

theorem updateFileExplorer_settings (M : JSValue → Option String → String)
    (st : PluginState) : (updateFileExplorer M st).1.settings = st.settings := by
  cases h : st.fileExplorer with
  | none => rw [updateFileExplorer_noFE M st h]
  | some fe =>
    rw [updateFileExplorer_char M st fe h]
    exact applyTargets_settings M _ st

theorem updateFileExplorer_savedData (M : JSValue → Option String → String)
    (st : PluginState) : (updateFileExplorer M st).1.savedData = st.savedData := by
  cases h : st.fileExplorer with
  | none => rw [updateFileExplorer_noFE M st h]
  | some fe =>
    rw [updateFileExplorer_char M st fe h]
    exact applyTargets_savedData M _ st

theorem updateFileExplorer_effs_write (M : JSValue → Option String → String)
    (st : PluginState) :
    ∀ e ∈ (updateFileExplorer M st).2.1, e.isWrite = true := by
  cases h : st.fileExplorer with
  | none =>
    rw [updateFileExplorer_noFE M st h]
    intro e he
    simp at he
  | some fe =>
    intro e he
    have hc : (updateFileExplorer M st).2.1 =
        (refreshTargets fe.fileItems (fe.fileItems.map Prod.fst)).map
          (fun q => Eff.setAttrE q (labelOf M st q)) := by
      rcases st with ⟨s, feo, m, sd⟩
      simp only at h
      subst h
      exact updateFEAux_effs_char M (fe.fileItems.map Prod.fst) ⟨s, some fe, m, sd⟩ fe rfl
    rw [hc] at he
    obtain ⟨q, _, hq⟩ := List.mem_map.mp he
    rw [← hq]
    rfl

theorem saveAndUpdateDisplay_effs (M : JSValue → Option String → String)
    (st : PluginState) :
    (saveAndUpdateDisplay M st).2.1 = (updateFileExplorer M st).2.1 ∨
    (saveAndUpdateDisplay M st).2.1 =
      (updateFileExplorer M st).2.1 ++ [Eff.persistE st.settings] := by
  unfold saveAndUpdateDisplay
  have hs := updateFileExplorer_settings M st
  rcases hT : updateFileExplorer M st with ⟨st1, es, t⟩
  rw [hT] at hs
  cases t
  · right
    simp only at hs
    show es ++ [Eff.persistE st1.settings] = es ++ [Eff.persistE st.settings]
    rw [hs]
  · left
    rfl

theorem updateFileExplorer_isSome (M : JSValue → Option String → String)
    (st : PluginState) (fe : FileExplorer) (h : st.fileExplorer = some fe) :
    ((updateFileExplorer M st).1.fileExplorer).isSome = true := by
  rw [updateFileExplorer_char M st fe h, applyTargets_eq_map M _ st fe h]
  rfl

/-- C3 counterexample: the claim that a truthy non-string Raw value appears
in the output in its string form fails on the code: with a single Raw
extractor over key a and snapshot a = 5, the number is truthy and its string
form is "5", yet the compiled label is "" because the filter i.length > 0
drops values without a length property. -/
theorem raw_truthy_number_dropped_cex :
    JSValue.truthy (JSValue.num 5) = true ∧
    JSValue.toJSString (JSValue.num 5) = "5" ∧
    calcDisplayText fmtZ ⟨[⟨"a", FrontmatterType.Raw, none⟩], "|"⟩
      (some [("a", JSValue.num 5)]) = "" ∧
    ("" : String) ≠ "5" := by
  refine ⟨rfl, rfl, rfl, by decide⟩

/-- C3 (amended): the Raw extractor's map output is the snapshot value when
truthy and the empty string otherwise; its contribution to the compiled label
is the value's string form exactly when the value is truthy and has a
positive length property (a nonempty string), and the empty string otherwise
(key absent, value falsy, or a truthy number or boolean, which the length
filter drops). -/
theorem raw_extractor_contribution (M : JSValue → Option String → String)
    (fm : Frontmatter) (k sep : String) (fo : Option String) :
    extractOutput M fm ⟨k, FrontmatterType.Raw, fo⟩ =
      (match fm.lookup k with
       | some v => if v.truthy then v else JSValue.str ""
       | none => JSValue.str "") ∧
    calcDisplayText M ⟨[⟨k, FrontmatterType.Raw, fo⟩], sep⟩ (some fm) =
      (match fm.lookup k with
       | some v => if v.truthy && jsKeep v then v.toJSString else ""
       | none => "") := by
  constructor
  · simp [extractOutput]
  · simp only [calcDisplayText, jsJoin, List.map_cons, List.map_nil]
    cases hl : fm.lookup k with
    | none => simp [extractOutput, hl, jsKeep, jsLength, intercalate_nil]
    | some v =>
      cases hv : v.truthy with
      | false => simp [extractOutput, hl, hv, jsKeep, jsLength, intercalate_nil]
      | true =>
        by_cases hk : jsKeep v
        · have hje : joinElem v = v.toJSString := by
            cases v <;> simp_all [jsKeep, jsLength, joinElem]
          simp [extractOutput, hl, hv, hk, List.filter_cons, hje,
            intercalate_single]
        · simp [extractOutput, hl, hv, hk, List.filter_cons,
            Bool.eq_false_iff.mpr hk, intercalate_nil]

/-- C4 counterexample: the claim that compile discards exactly the empty
per-extractor outputs (outputs as the spec defines them, string-coerced) and
joins the rest fails: with extractors over a and b, snapshot a = 5, b = "Y"
and separator "|", the spec-literal pipeline gives "5 | Y" while the code
gives "Y". -/
theorem compile_spec_join_cex :
    calcDisplayText fmtZ cfgAB (some [("a", JSValue.num 5), ("b", JSValue.str "Y")]) = "Y" ∧
    compileSpecRef fmtZ cfgAB (some [("a", JSValue.num 5), ("b", JSValue.str "Y")]) = "5 | Y" ∧
    ("Y" : String) ≠ "5 | Y" := by
  refine ⟨rfl, rfl, by decide⟩

/-- C4 (amended): compile discards the per-extractor outputs lacking a
positive length property (empty strings, and truthy non-string scalars) and
joins the string forms of the remaining outputs, in extractor order, with the
separator flanked by single spaces; on string-valued snapshots this discards
exactly the empty outputs, and the two concrete examples of the claim hold:
a = "X", b = "Y" give "X | Y", and a = "", b = "Y" give "Y" with no dangling
separator. -/
theorem compile_join_structure (M : JSValue → Option String → String) :
    (∀ (cfg : PluginSettings) (fm : Option Frontmatter),
      calcDisplayText M cfg fm = compileAmended M cfg fm) ∧
    calcDisplayText M cfgAB (some [("a", JSValue.str "X"), ("b", JSValue.str "Y")]) = "X | Y" ∧
    calcDisplayText M cfgAB (some [("a", JSValue.str ""), ("b", JSValue.str "Y")]) = "Y" :=
  ⟨calc_eq_compileAmended M, rfl, rfl⟩

/-- C5: compile is total and never throws: the fault-sensitive evaluation of
calcDisplayText (modelling every JavaScript member access that could throw)
returns ok with the value of the total function, for every formatter,
extractor list, separator and snapshot, including absent snapshots and
arbitrary scalar field values. -/
theorem calcDisplayText_total (M : JSValue → Option String → String)
    (cfg : PluginSettings) (fm : Option Frontmatter) :
    calcDisplayTextE M cfg fm = Except.ok (calcDisplayText M cfg fm) := by
  cases fm with
  | none => rfl
  | some f =>
    simp only [calcDisplayTextE, calcDisplayText]
    rw [filterLenE_ok]
    intro v hv
    obtain ⟨item, _, hev⟩ := List.mem_map.mp hv
    exact hev ▸ extractOutput_ne_null M f item

/-- C8: an extractor whose kind is neither of the two closed variants
produces the empty string in the map stage and contributes nothing to the
joined output: deleting it from the extractor list leaves the compiled label
unchanged for every snapshot. -/
theorem unknown_kind_contributes_empty (M : JSValue → Option String → String)
    (item : ListItem) (h : item.type ∉ FrontmatterType_TYPES) :
    (∀ fm : Frontmatter, extractOutput M fm item = JSValue.str "") ∧
    (∀ (l1 l2 : List ListItem) (sep : String) (fm : Option Frontmatter),
      calcDisplayText M ⟨l1 ++ item :: l2, sep⟩ fm =
        calcDisplayText M ⟨l1 ++ l2, sep⟩ fm) := by
  simp only [FrontmatterType_TYPES, List.mem_cons, List.mem_singleton] at h
  push_neg at h
  obtain ⟨h1, h2⟩ := h
  have he : ∀ fm : Frontmatter, extractOutput M fm item = JSValue.str "" := by
    intro fm
    simp [extractOutput, h1, h2]
  refine ⟨he, ?_⟩
  intro l1 l2 sep fm
  cases fm with
  | none => rfl
  | some f =>
    simp only [calcDisplayText, jsJoin]
    congr 1
    simp only [List.map_append, List.map_cons, List.filter_append, he f,
      List.filter_cons]
    have hk : jsKeep (JSValue.str "") = false := rfl
    simp [hk]

/-- C8 witness: a concrete extractor of kind "banana" over a snapshot where
its key is present and truthy contributes nothing. -/
theorem unknown_kind_contributes_empty_w :
    calcDisplayText fmtZ ⟨[⟨"k", "banana", none⟩], "|"⟩ (some [("k", JSValue.str "v")]) =
      calcDisplayText fmtZ ⟨[], "|"⟩ (some [("k", JSValue.str "v")]) :=
  (unknown_kind_contributes_empty fmtZ ⟨"k", "banana", none⟩ (by decide)).2 [] [] "|"
    (some [("k", JSValue.str "v")])

/-- C9: for a Date extractor whose key is present but holds a falsy value,
compile contributes the empty string without invoking the date formatter: the
result is the empty string for every formatter M. -/
theorem date_falsy_skips_formatter (M : JSValue → Option String → String)
    (fm : Frontmatter) (k sep : String) (fo : Option String) (v : JSValue)
    (hv : fm.lookup k = some v) (ht : v.truthy = false) :
    extractOutput M fm ⟨k, FrontmatterType.Date, fo⟩ = JSValue.str "" ∧
    calcDisplayText M ⟨[⟨k, FrontmatterType.Date, fo⟩], sep⟩ (some fm) = "" := by
  have he : extractOutput M fm ⟨k, FrontmatterType.Date, fo⟩ = JSValue.str "" := by
    simp [extractOutput, FrontmatterType.Raw, FrontmatterType.Date, hv, ht]
  refine ⟨he, ?_⟩
  simp [calcDisplayText, jsJoin, he, List.filter_cons,
    show jsKeep (JSValue.str "") = false from rfl, intercalate_nil]

/-- C9 witness: the snapshot d = 0 (present, falsy) yields an empty
contribution for a Date extractor with format "YYYY". -/
theorem date_falsy_skips_formatter_w :
    extractOutput fmtZ [("d", JSValue.num 0)] ⟨"d", FrontmatterType.Date, some "YYYY"⟩ =
      JSValue.str "" ∧
    calcDisplayText fmtZ ⟨[⟨"d", FrontmatterType.Date, some "YYYY"⟩], "|"⟩
      (some [("d", JSValue.num 0)]) = "" :=
  date_falsy_skips_formatter fmtZ [("d", JSValue.num 0)] "d" "|" (some "YYYY")
    (JSValue.num 0) rfl rfl

/-- C10: under the built-in DEFAULT_SETTINGS (one Raw extractor with the
empty key, separator "|"), compile returns the empty string for every
snapshot that has no empty-string key. -/
theorem default_settings_empty_label (M : JSValue → Option String → String)
    (fm : Frontmatter) (h : fm.lookup "" = none) :
    calcDisplayText M DEFAULT_SETTINGS (some fm) = "" := by
  simp [calcDisplayText, DEFAULT_SETTINGS, jsJoin, extractOutput, h,
    List.filter_cons, show jsKeep (JSValue.str "") = false from rfl,
    intercalate_nil]

/-- C10 witness: a concrete snapshot with key a and no empty-string key gets
the empty label under the default configuration. -/
theorem default_settings_empty_label_w :
    calcDisplayText fmtZ DEFAULT_SETTINGS (some [("a", JSValue.str "X")]) = "" :=
  default_settings_empty_label fmtZ [("a", JSValue.str "X")] rfl

/-- C1 counterexample: with the handle acquired but the file's path absent
from the tracked set, updateFileDisplay is not a silent no-op: destructuring
fileItems[file.path] throws (modelled as none), refuting the claim that the
untracked case neither throws nor writes. -/
theorem updateFileDisplay_untracked_throws_cex :
    stU.fileExplorer.isSome = true ∧
    (itemsOf stU).lookup "a.md" = none ∧
    updateFileDisplay fmtZ stU fA = none :=
  ⟨rfl, rfl, rfl⟩

/-- C1 (amended): updateFileDisplay is a silent no-op (no throw, no write)
when the handle has not been acquired; when the handle is acquired and the
path is tracked it recomputes and writes the label of exactly that path (the
entry under file.path is updated, every other key's entry is unchanged); but
when the handle is acquired and the path is untracked it throws instead of
being a no-op. -/
theorem updateFileDisplay_cases (M : JSValue → Option String → String)
    (st : PluginState) (f : TFile) :
    (st.fileExplorer = none → updateFileDisplay M st f = some (st, [])) ∧
    (∀ fe, st.fileExplorer = some fe → fe.fileItems.lookup f.path = none →
      updateFileDisplay M st f = none) ∧
    (∀ fe, st.fileExplorer = some fe → (fe.fileItems.lookup f.path).isSome = true →
      updateFileDisplay M st f =
        some (withItems st (setAttrAll fe.fileItems f.path (labelOf M st f.path)),
          [Eff.setAttrE f.path (labelOf M st f.path)]) ∧
      ∀ q, q ≠ f.path →
        (setAttrAll fe.fileItems f.path (labelOf M st f.path)).lookup q =
          fe.fileItems.lookup q) := by
  refine ⟨?_, ?_, ?_⟩
  · intro h
    exact updateFileDisplay_noFE M st f h
  · intro fe h hl
    exact updateFileDisplay_none M st fe f h hl
  · intro fe h hl
    constructor
    · have h1 := updateFileDisplay_eq_writeLabel M st fe f h hl
      rw [h1]
      have hw : writeLabel M st f.path =
          withItems st (setAttrAll fe.fileItems f.path (labelOf M st f.path)) := by
        unfold writeLabel
        rw [h]
      rw [hw]
    · intro q hq
      exact lookup_setAttrAll_ne fe.fileItems f.path (labelOf M st f.path) q hq

/-- C1 witness: the three cases instantiated at concrete states: no handle
(no-op), handle with empty tracked set (throws), and handle tracking a.md
(writes exactly that label). -/
theorem updateFileDisplay_cases_w :
    updateFileDisplay fmtZ stN fA = some (stN, []) ∧
    updateFileDisplay fmtZ stU fA = none ∧
    updateFileDisplay fmtZ stT fA =
      some (withItems stT (setAttrAll itemsT "a.md" (labelOf fmtZ stT "a.md")),
        [Eff.setAttrE "a.md" (labelOf fmtZ stT "a.md")]) :=
  ⟨(updateFileDisplay_cases fmtZ stN fA).1 rfl,
   (updateFileDisplay_cases fmtZ stU fA).2.1 ⟨[]⟩ rfl rfl,
   ((updateFileDisplay_cases fmtZ stT fA).2.2 ⟨itemsT⟩ rfl rfl).1⟩

/-- C2 counterexample: on a state tracking one file, the settings-change
handler's effect trace is the attribute write followed by the persistence
write, so the claim that the persistence write happens before any label write
fails at index 0 (a write with no earlier persist). -/
theorem saveAndUpdateDisplay_persist_not_first_cex :
    ((saveAndUpdateDisplay fmtZ stT).2.1).get? 0 = some (Eff.setAttrE "a.md" "v") ∧
    ((saveAndUpdateDisplay fmtZ stT).2.1).get? 1 = some (Eff.persistE cfgW) ∧
    ¬ (∀ i e, ((saveAndUpdateDisplay fmtZ stT).2.1).get? i = some e →
        e.isWrite = true →
        ∃ j s, j < i ∧
          ((saveAndUpdateDisplay fmtZ stT).2.1).get? j = some (Eff.persistE s)) := by
  refine ⟨rfl, rfl, ?_⟩
  intro hcl
  obtain ⟨j, s, hj, _⟩ := hcl 0 (Eff.setAttrE "a.md" "v") rfl rfl
  exact absurd hj (Nat.not_lt_zero j)

/-- C2 (amended): in the settings-change handler the display refresh comes
first and the persistence write last: when the refresh does not throw, the
trace is the refresh's writes followed by one persist of the settings and the
settings store ends holding them; when the refresh throws, the persistence
write is skipped entirely (the exception propagates, the trace holds no
persist effect and the settings store is unchanged); and in every trace each
label write occurs strictly before every persistence write. -/
theorem saveAndUpdateDisplay_writes_before_persist
    (M : JSValue → Option String → String) (st : PluginState) :
    ((updateFileExplorer M st).2.2 = false →
      (saveAndUpdateDisplay M st).2.1 =
        (updateFileExplorer M st).2.1 ++ [Eff.persistE st.settings] ∧
      (saveAndUpdateDisplay M st).1.savedData = some st.settings) ∧
    ((updateFileExplorer M st).2.2 = true →
      (saveAndUpdateDisplay M st).2.1 = (updateFileExplorer M st).2.1 ∧
      (saveAndUpdateDisplay M st).2.2 = true ∧
      (saveAndUpdateDisplay M st).1.savedData = st.savedData ∧
      ∀ e ∈ (saveAndUpdateDisplay M st).2.1, e.isPersist = false) ∧
    (∀ i j e1 e2,
      ((saveAndUpdateDisplay M st).2.1).get? i = some e1 →
      ((saveAndUpdateDisplay M st).2.1).get? j = some e2 →
      e1.isWrite = true → e2.isPersist = true → i < j) := by
  refine ⟨?_, ?_, ?_⟩
  · intro ht
    unfold saveAndUpdateDisplay
    have hs := updateFileExplorer_settings M st
    rcases hT : updateFileExplorer M st with ⟨st1, es, t⟩
    rw [hT] at hs ht
    simp only at hs ht
    subst ht
    constructor
    · show es ++ [Eff.persistE st1.settings] = es ++ [Eff.persistE st.settings]
      rw [hs]
    · show some st1.settings = some st.settings
      rw [hs]
  · intro ht
    have hwAll := updateFileExplorer_effs_write M st
    have hsd := updateFileExplorer_savedData M st
    unfold saveAndUpdateDisplay
    rcases hT : updateFileExplorer M st with ⟨st1, es, t⟩
    rw [hT] at ht hwAll hsd
    simp only at ht hwAll hsd
    subst ht
    refine ⟨rfl, rfl, hsd, ?_⟩
    intro e he
    have h2 := hwAll e he
    cases e
    · rfl
    · simp [Eff.isWrite] at h2
  · intro i j e1 e2 hi hj hw hp
    rcases saveAndUpdateDisplay_effs M st with hE | hE
    · exfalso
      rw [hE] at hj
      have h2 := updateFileExplorer_effs_write M st e2 (List.get?_mem hj)
      cases e2 <;> simp [Eff.isWrite, Eff.isPersist] at h2 hp
    · rw [hE] at hi hj
      have hwAll := updateFileExplorer_effs_write M st
      have hjeq : j = ((updateFileExplorer M st).2.1).length := by
        by_contra hne
        obtain ⟨hlt, _⟩ := List.get?_eq_some.mp hj
        rw [List.length_append] at hlt
        simp only [List.length_singleton] at hlt
        have hjlt2 : j < ((updateFileExplorer M st).2.1).length := by omega
        rw [List.get?_append hjlt2] at hj
        have h2 := hwAll e2 (List.get?_mem hj)
        cases e2 <;> simp [Eff.isWrite, Eff.isPersist] at h2 hp
      have hine : i ≠ ((updateFileExplorer M st).2.1).length := by
        intro he
        rw [he, List.get?_concat_length] at hi
        injection hi with h1
        rw [← h1] at hw
        simp [Eff.isWrite] at hw
      obtain ⟨hlt, _⟩ := List.get?_eq_some.mp hi
      rw [List.length_append] at hlt
      simp only [List.length_singleton] at hlt
      omega

/-- C2 witness: on the tracked state stT the refresh completes and the trace
is the write then the persist (indices 0 and 1, with 0 < 1 from the order
part); on the malformed state stX the refresh throws and the settings store
stays untouched. -/
theorem saveAndUpdateDisplay_writes_before_persist_w :
    (updateFileExplorer fmtZ stT).2.2 = false ∧
    (saveAndUpdateDisplay fmtZ stT).2.1 =
      (updateFileExplorer fmtZ stT).2.1 ++ [Eff.persistE cfgW] ∧
    (updateFileExplorer fmtZ stX).2.2 = true ∧
    (saveAndUpdateDisplay fmtZ stX).1.savedData = none ∧
    (0 : Nat) < 1 :=
  ⟨rfl,
   ((saveAndUpdateDisplay_writes_before_persist fmtZ stT).1 rfl).1,
   rfl,
   ((saveAndUpdateDisplay_writes_before_persist fmtZ stX).2.1 rfl).2.2.1,
   (saveAndUpdateDisplay_writes_before_persist fmtZ stT).2.2 0 1
     (Eff.setAttrE "a.md" "v") (Eff.persistE cfgW) rfl rfl rfl rfl⟩

/-- C6: refreshAll is idempotent: running updateFileExplorer a second time on
the state produced by a first run, with the same settings and no metadata
change in between, yields exactly the same state, so every tracked file's
display-attribute slot keeps the label written by the first run. -/
theorem updateFileExplorer_idempotent (M : JSValue → Option String → String)
    (st : PluginState) :
    (updateFileExplorer M ((updateFileExplorer M st).1)).1 = (updateFileExplorer M st).1 := by
  cases h : st.fileExplorer with
  | none =>
    rw [updateFileExplorer_noFE M st h]
    rw [updateFileExplorer_noFE M st h]
  | some fe =>
    have h1 := updateFileExplorer_char M st fe h
    have hAM := applyTargets_eq_map M
      (refreshTargets fe.fileItems (fe.fileItems.map Prod.fst)) st fe h
    have hfe1 : ((updateFileExplorer M st).1).fileExplorer =
        some (FileExplorer.mk (fe.fileItems.map
          (itemApply (labelOf M st) (refreshTargets fe.fileItems (fe.fileItems.map Prod.fst))))) := by
      rw [h1, hAM]
      rfl
    have hkeys : (fe.fileItems.map
        (itemApply (labelOf M st) (refreshTargets fe.fileItems (fe.fileItems.map Prod.fst)))).map Prod.fst =
        fe.fileItems.map Prod.fst := by
      rw [List.map_map]
      have h5 : Prod.fst ∘ itemApply (labelOf M st) (refreshTargets fe.fileItems (fe.fileItems.map Prod.fst)) =
          (Prod.fst : String × FileItem → String) := by
        funext it
        exact itemApply_fst _ _ it
      rw [h5]
    have hstable : refreshTargets (fe.fileItems.map
        (itemApply (labelOf M st) (refreshTargets fe.fileItems (fe.fileItems.map Prod.fst))))
        (fe.fileItems.map Prod.fst) =
        refreshTargets fe.fileItems (fe.fileItems.map Prod.fst) := by
      apply refreshTargets_map
      · intro kx
        exact itemApply_fst _ _ kx
      · intro kx
        exact itemApply_file _ _ kx
    have h2 := updateFileExplorer_char M ((updateFileExplorer M st).1) _ hfe1
    rw [h2]
    show applyTargets M ((updateFileExplorer M st).1) _ = _
    rw [hkeys, hstable, h1]
    exact applyTargets_idem M _ st

/-- Helper: the caught error path of init around the refresh: when
acquisition succeeds but the full refresh throws, the catch schedules a
1000 ms retry and init runs again from the partially refreshed state. -/
theorem init_refresh_throw_retries (M : JSValue → Option String → String)
    (st : PluginState) (fe : FileExplorer) (leaves : List Leaf)
    (rest : List (List Leaf))
    (hg : getFileExplorerLeaf leaves = Except.ok fe)
    (ht : (updateFileExplorer M (setFileExplorer st fe)).2.2 = true) :
    init M st (leaves :: rest) =
      ((init M ((updateFileExplorer M (setFileExplorer st fe)).1) rest).1,
       InitEv.refreshAllCalled :: InitEv.retryScheduled 1000 ::
         (init M ((updateFileExplorer M (setFileExplorer st fe)).1) rest).2) := by
  simp only [init]
  rw [hg]
  show (match updateFileExplorer M (setFileExplorer st fe) with
    | (st1, _, true) =>
      ((init M st1 rest).1,
       InitEv.refreshAllCalled :: InitEv.retryScheduled 1000 :: (init M st1 rest).2)
    | (st1, _, false) => (st1, [InitEv.refreshAllCalled])) = _
  rcases hU : updateFileExplorer M (setFileExplorer st fe) with ⟨st1, es, t⟩
  rw [hU] at ht
  simp only at ht
  subst ht
  rfl

/-- Helper: the success path of init: when acquisition succeeds and the full
refresh completes without throwing, init stores the handle, refreshes once
and stops. -/
theorem init_refresh_ok (M : JSValue → Option String → String)
    (st : PluginState) (fe : FileExplorer) (leaves : List Leaf)
    (rest : List (List Leaf))
    (hg : getFileExplorerLeaf leaves = Except.ok fe)
    (ht : (updateFileExplorer M (setFileExplorer st fe)).2.2 = false) :
    init M st (leaves :: rest) =
      ((updateFileExplorer M (setFileExplorer st fe)).1, [InitEv.refreshAllCalled]) := by
  simp only [init]
  rw [hg]
  show (match updateFileExplorer M (setFileExplorer st fe) with
    | (st1, _, true) =>
      ((init M st1 rest).1,
       InitEv.refreshAllCalled :: InitEv.retryScheduled 1000 :: (init M st1 rest).2)
    | (st1, _, false) => (st1, [InitEv.refreshAllCalled])) = _
  rcases hU : updateFileExplorer M (setFileExplorer st fe) with ⟨st1, es, t⟩
  rw [hU] at ht
  simp only at ht
  subst ht
  rfl

/-- C7: if handle acquisition fails for each of the environments in fails and
then succeeds on good, and the full refresh performed on the acquired handle
completes without throwing (a throwing refresh is caught and retried, see
init_refresh_throw_retries; it can only arise from a malformed tracked set),
then init ends with the handle acquired, its event trace is one 1000 ms retry
per failure followed by exactly one full refresh, and the refresh is
performed exactly once over the whole sequence. -/
theorem init_retry_then_single_refresh (M : JSValue → Option String → String)
    (st : PluginState) (fe : FileExplorer) (good : List Leaf)
    (ht : (updateFileExplorer M (setFileExplorer st fe)).2.2 = false) :
    ∀ fails : List (List Leaf),
      (∀ e ∈ fails, getFileExplorerLeaf e = Except.error "Could not find file explorer leaf") →
      getFileExplorerLeaf good = Except.ok fe →
      ((init M st (fails ++ [good])).1.fileExplorer).isSome = true ∧
      (init M st (fails ++ [good])).2 =
        (fails.map fun _ => InitEv.retryScheduled 1000) ++ [InitEv.refreshAllCalled] ∧
      ((init M st (fails ++ [good])).2.count InitEv.refreshAllCalled) = 1 := by
  intro fails
  induction fails with
  | nil =>
    intro _ hg
    simp only [List.nil_append, List.map_nil]
    rw [init_refresh_ok M st fe good [] hg ht]
    refine ⟨?_, rfl, rfl⟩
    exact updateFileExplorer_isSome M (setFileExplorer st fe) fe rfl
  | cons e fs ih =>
    intro hf hg
    have he := hf e (List.mem_cons_self e fs)
    have ihh := ih (fun x hx => hf x (List.mem_cons_of_mem e hx)) hg
    simp only [List.cons_append, List.map_cons]
    simp only [init]
    rw [he]
    rcases hI : init M st (fs ++ [good]) with ⟨st1, evs⟩
    rw [hI] at ihh
    simp only at ihh
    obtain ⟨h1, h2, h3⟩ := ihh
    refine ⟨h1, ?_, ?_⟩
    · show InitEv.retryScheduled 1000 :: evs = _
      rw [h2]
    · show (InitEv.retryScheduled 1000 :: evs).count InitEv.refreshAllCalled = 1
      rw [List.count_cons]
      simp only [h3]
      rfl

/-- C7 witness: one failing attempt (empty workspace) then a succeeding one
(a leaf exposing an empty fileItems index, on which the refresh completes):
the handle ends acquired and the trace is one scheduled 1000 ms retry then
one full refresh. -/
theorem init_retry_then_single_refresh_w :
    (updateFileExplorer fmtZ (setFileExplorer stN (FileExplorer.mk []))).2.2 = false ∧
    ((init fmtZ stN ([[]] ++ [[{ view := some (FileExplorer.mk []) }]])).1.fileExplorer).isSome = true ∧
    (init fmtZ stN ([[]] ++ [[{ view := some (FileExplorer.mk []) }]])).2 =
      [InitEv.retryScheduled 1000, InitEv.refreshAllCalled] ∧
    ((init fmtZ stN ([[]] ++ [[{ view := some (FileExplorer.mk []) }]])).2.count
      InitEv.refreshAllCalled) = 1 :=
  ⟨rfl,
   init_retry_then_single_refresh fmtZ stN (FileExplorer.mk [])
     [{ view := some (FileExplorer.mk []) }] rfl [[]]
     (by intro e he; rw [List.mem_singleton] at he; rw [he]; rfl) rfl⟩
